import Mathlib

/-!
Verification development for `pyscf/gw/gw_slow.py` (molecular G0W0 on top of TDHF).

The file shallowly embeds the two cores of the module:

* the spectral-intermediates / self-energy part of class `IMDS`
  (`construct_tdm`, `get_sigma_element`, `get_rhs`, `quasiparticle_eq`),
  modelled over an arbitrary field `F` with explicit complex pairs `Cx F`
  (machine floats are modelled by exact field arithmetic);
* the root-finding driver `kernel` together with the SciPy solvers it calls
  (`newton`, `bisect`), the call-logging wrapper `LoggingFunction`, Python
  exception propagation, and the dynamic typing of the `orbs` argument,
  all modelled over `ℚ` so that every run is computable.

SciPy's `newton` and `bisect` are not part of the repository; they are
modelled from the specification (secant-type local finder with iteration
budget 100 and absolute tolerance on the step, failure to converge raised
as a RuntimeError; bracketing bisection with an x-space tolerance `xtol`,
demanding a sign change between the endpoint residuals).  Likewise
`pyscf.lib.temporary_env` is modelled from the specification as a scoped
override restoring the attribute on every exit path.
-/

set_option linter.unusedVariables false
set_option maxRecDepth 16000

namespace GWSlow

/-! ## Complex pairs over an arbitrary field -/

/-- A complex number over the base field `F`, as an explicit pair.
Used to embed the complex `numpy` arithmetic of `gw_slow.py` exactly. -/
structure Cx (F : Type) where
  re : F
  im : F
deriving DecidableEq, Repr

variable {F : Type} [Field F]

instance : Zero (Cx F) := ⟨⟨0, 0⟩⟩

instance : One (Cx F) := ⟨⟨1, 0⟩⟩

instance : Add (Cx F) := ⟨fun z w => ⟨z.re + w.re, z.im + w.im⟩⟩

instance : Neg (Cx F) := ⟨fun z => ⟨-z.re, -z.im⟩⟩

instance : Sub (Cx F) := ⟨fun z w => ⟨z.re - w.re, z.im - w.im⟩⟩

instance : Mul (Cx F) :=
  ⟨fun z w => ⟨z.re * w.re - z.im * w.im, z.re * w.im + z.im * w.re⟩⟩

/-- Complex division `z / w = z * conj w / |w|^2` (total: division by `0` in
`F` yields `0`, matching Lean's field conventions). -/
instance : Div (Cx F) :=
  ⟨fun z w =>
    ⟨(z.re * w.re + z.im * w.im) / (w.re * w.re + w.im * w.im),
     (z.im * w.re - z.re * w.im) / (w.re * w.re + w.im * w.im)⟩⟩

/-- Embedding of the base field (real axis). -/
def Cx.ofReal (a : F) : Cx F := ⟨a, 0⟩

/-- The imaginary unit (`1j` of Python). -/
def Cx.I : Cx F := ⟨0, 1⟩

/-- Complex conjugation (`numpy.conj`). -/
def Cx.conj (z : Cx F) : Cx F := ⟨z.re, -z.im⟩

/-- Squaring, `z ** 2` of Python. -/
def Cx.sq (z : Cx F) : Cx F := z * z

instance : AddCommMonoid (Cx F) where
  add_assoc a b c := by
    cases a with | mk ar ai =>
    cases b with | mk br bi =>
    cases c with | mk cr ci =>
    show (⟨ar + br + cr, ai + bi + ci⟩ : Cx F) = ⟨ar + (br + cr), ai + (bi + ci)⟩
    rw [add_assoc ar br cr, add_assoc ai bi ci]
  zero_add a := by
    cases a with | mk ar ai =>
    show (⟨0 + ar, 0 + ai⟩ : Cx F) = ⟨ar, ai⟩
    rw [zero_add ar, zero_add ai]
  add_zero a := by
    cases a with | mk ar ai =>
    show (⟨ar + 0, ai + 0⟩ : Cx F) = ⟨ar, ai⟩
    rw [add_zero ar, add_zero ai]
  add_comm a b := by
    cases a with | mk ar ai =>
    cases b with | mk br bi =>
    show (⟨ar + br, ai + bi⟩ : Cx F) = ⟨br + ar, bi + ai⟩
    rw [add_comm ar br, add_comm ai bi]
  nsmul := nsmulRec

/-! ## The TDHF data consumed by `IMDS.__init__`

`no`, `nv`, `nexc`, `nb` are the numbers of occupied orbitals, virtual
orbitals, TDHF excitations and AO basis functions.  The integral store is
indexable by occupation-pattern strings; each block used by the module is a
field here, with axis subspaces given by the pattern (`o` = occupied,
`v` = virtual).  `v_mf` is the matrix `mf.get_veff() - mf.get_j()` computed
once in `IMDS.__init__` (in the AO basis), and `mo_coeff` the AO x MO
coefficient matrix.  `iscomplex` models `numpy.iscomplexobj(self["oovv"])`. -/
structure TDData (F : Type) (no nv nexc nb : ℕ) where
  mo_energy : Fin (no + nv) → F
  td_e : Fin nexc → F
  xy : Fin nexc → Fin 2 → Fin no → Fin nv → Cx F
  oooo : Fin no → Fin no → Fin no → Fin no → Cx F
  oovo : Fin no → Fin no → Fin nv → Fin no → Cx F
  oovv : Fin no → Fin no → Fin nv → Fin nv → Cx F
  ovvv : Fin no → Fin nv → Fin nv → Fin nv → Cx F
  ovvo : Fin no → Fin nv → Fin nv → Fin no → Cx F
  v_mf : Fin nb → Fin nb → Cx F
  mo_coeff : Fin nb → Fin (no + nv) → Cx F
  iscomplex : Bool

variable {no nv nexc nb : ℕ}

/-- `self.o = self.eri.mo_energy[:self.nocc]`. -/
def occE (d : TDData F no nv nexc nb) (i : Fin no) : F :=
  d.mo_energy (Fin.castAdd nv i)

/-- `self.v = self.eri.mo_energy[self.nocc:]`. -/
def virE (d : TDData F no nv nexc nb) (a : Fin nv) : F :=
  d.mo_energy (Fin.natAdd no a)

/-- `td_xy = 2 * numpy.asarray(self.td_xy)` in `construct_tdm`. -/
def txy (d : TDData F no nv nexc nb) (v : Fin nexc) (x : Fin 2)
    (i : Fin no) (a : Fin nv) : Cx F :=
  Cx.ofReal 2 * d.xy v x i a

/-- `tdm_oo = einsum('vxia,ipaq->vxpq', td_xy, self["oovo"])`. -/
def tdm_oo (d : TDData F no nv nexc nb) (v : Fin nexc) (x : Fin 2)
    (p q : Fin no) : Cx F :=
  ∑ i : Fin no, ∑ a : Fin nv, txy d v x i a * d.oovo i p a q

/-- `tdm_ov = einsum('vxia,ipaq->vxpq', td_xy, self["oovv"])`. -/
def tdm_ov (d : TDData F no nv nexc nb) (v : Fin nexc) (x : Fin 2)
    (p : Fin no) (q : Fin nv) : Cx F :=
  ∑ i : Fin no, ∑ a : Fin nv, txy d v x i a * d.oovv i p a q

/-- `tdm_vv = einsum('vxia,ipaq->vxpq', td_xy, self["ovvv"])`. -/
def tdm_vv (d : TDData F no nv nexc nb) (v : Fin nexc) (x : Fin 2)
    (p q : Fin nv) : Cx F :=
  ∑ i : Fin no, ∑ a : Fin nv, txy d v x i a * d.ovvv i p a q

/-- The vir-occ quadrant: a fresh contraction with `self["ovvo"]` when the
integral store is complex, and `tdm_ov.swapaxes(2, 3).conj()` otherwise. -/
def tdm_vo (d : TDData F no nv nexc nb) (v : Fin nexc) (x : Fin 2)
    (p : Fin nv) (q : Fin no) : Cx F :=
  if d.iscomplex then
    ∑ i : Fin no, ∑ a : Fin nv, txy d v x i a * d.ovvo i p a q
  else
    Cx.conj (tdm_ov d v x q p)

/-- The assembled transition density tensor of `construct_tdm`: the four
quadrants block-concatenated along both orbital axes. -/
def tdm (d : TDData F no nv nexc nb) (v : Fin nexc) (x : Fin 2)
    (P Q : Fin (no + nv)) : Cx F :=
  if hP : (P : ℕ) < no then
    if hQ : (Q : ℕ) < no then
      tdm_oo d v x ⟨P, hP⟩ ⟨Q, hQ⟩
    else
      tdm_ov d v x ⟨P, hP⟩ ⟨(Q : ℕ) - no, by have := Q.isLt; omega⟩
  else
    if hQ : (Q : ℕ) < no then
      tdm_vo d v x ⟨(P : ℕ) - no, by have := P.isLt; omega⟩ ⟨Q, hQ⟩
    else
      tdm_vv d v x ⟨(P : ℕ) - no, by have := P.isLt; omega⟩
        ⟨(Q : ℕ) - no, by have := Q.isLt; omega⟩

/-- `tdm.sum(axis=1)` in `get_sigma_element`: the transition density tensor
summed over its spin-component axis. -/
def tdmS (d : TDData F no nv nexc nb) (v : Fin nexc) (P Q : Fin (no + nv)) :
    Cx F :=
  ∑ x : Fin 2, tdm d v x P Q

/-- `IMDS.get_sigma_element(omega, p, eta, vir_sgn)`.  The two `numpy.sum`
calls flatten their 2-D argument arrays, so each is a sum over the product
index set.  `evi = direct_sum('v-i->vi', self.td_e, self.o)` and
`eva = direct_sum('v+a->va', self.td_e, self.v)` are inlined. -/
def get_sigma_element (d : TDData F no nv nexc nb) (ω : F)
    (p : Fin (no + nv)) (η vir_sgn : F) : Cx F :=
  (∑ vi : Fin nexc × Fin no,
      Cx.sq (tdmS d vi.1 (Fin.castAdd nv vi.2) p) /
        (Cx.ofReal ω + Cx.ofReal (d.td_e vi.1 - occE d vi.2) -
          Cx.I * Cx.ofReal η)) +
  (∑ va : Fin nexc × Fin nv,
      Cx.sq (tdmS d va.1 (Fin.natAdd no va.2) p) /
        (Cx.ofReal ω - Cx.ofReal (d.td_e va.1 + virE d va.2) +
          Cx.ofReal vir_sgn * Cx.I * Cx.ofReal η))

/-- `IMDS.get_rhs(p)` (the `components=False` return value
`moe + vk - v_mf`): the mean-field orbital energy, minus the trace of the
`"oooo"` block slice for occupied `p` (resp. of the `"ovvo"` block slice for
virtual `p`), minus `einsum("i,ij,j", mo_coeff[:, p].conj(), v_mf,
mo_coeff[:, p])` (`einsum` contracts over the product of both AO indexes). -/
def get_rhs (d : TDData F no nv nexc nb) (p : Fin (no + nv)) : Cx F :=
  Cx.ofReal (d.mo_energy p) +
    (if h : (p : ℕ) < no then
      -∑ i : Fin no, d.oooo ⟨p, h⟩ i i ⟨p, h⟩
    else
      -∑ i : Fin no,
        d.ovvo i ⟨(p : ℕ) - no, by have := p.isLt; omega⟩
          ⟨(p : ℕ) - no, by have := p.isLt; omega⟩ i) -
    ∑ ij : Fin nb × Fin nb,
      Cx.conj (d.mo_coeff ij.1 p) * d.v_mf ij.1 ij.2 * d.mo_coeff ij.2 p

/-- The closure returned by `AbstractIMDS.quasiparticle_eq(p, eta=eta)`
(with the default `vir_sgn`): `omega - get_sigma_element(...).real - rhs`.
`omega` and `sigma.real` are floats but `rhs` may be complex, so the value
is formed in `Cx F`. -/
def quasiparticle_eq (d : TDData F no nv nexc nb) (η vir_sgn : F)
    (p : Fin (no + nv)) (ω : F) : Cx F :=
  Cx.ofReal ω - Cx.ofReal ((get_sigma_element d ω p η vir_sgn).re) -
    get_rhs d p

/-! ### Spec-side formulations (transcribed from the claims, to be compared
with the code-side definitions above) -/

/-- Spec: `evi[v,i] = excitation_energy[v] - occ_energy[i]`. -/
def evi_spec (d : TDData F no nv nexc nb) (v : Fin nexc) (i : Fin no) : F :=
  d.td_e v - occE d i

/-- Spec: `eva[v,a] = excitation_energy[v] + vir_energy[a]`. -/
def eva_spec (d : TDData F no nv nexc nb) (v : Fin nexc) (a : Fin nv) : F :=
  d.td_e v + virE d a

/-- Spec formula for the self-energy: sum over all excitations `v` and
occupied indices `i` of `tdm[v,i,p]^2 / (omega + evi[v,i] - i*eta)`, plus
the sum over all excitations `v` and virtual indices `a` of
`tdm[v,a,p]^2 / (omega - eva[v,a] + vir_sign*i*eta)`, with `tdm` summed
over its spin-component axis. -/
def sigma_spec (d : TDData F no nv nexc nb) (ω : F) (p : Fin (no + nv))
    (η vir_sgn : F) : Cx F :=
  (∑ v : Fin nexc, ∑ i : Fin no,
      Cx.sq (tdmS d v (Fin.castAdd nv i) p) /
        (Cx.ofReal ω + Cx.ofReal (evi_spec d v i) - Cx.I * Cx.ofReal η)) +
  (∑ v : Fin nexc, ∑ a : Fin nv,
      Cx.sq (tdmS d v (Fin.natAdd no a) p) /
        (Cx.ofReal ω - Cx.ofReal (eva_spec d v a) +
          Cx.ofReal vir_sgn * Cx.I * Cx.ofReal η))

/-- Spec: trace of a square block. -/
def traceC (n : ℕ) (M : Fin n → Fin n → Cx F) : Cx F := ∑ i : Fin n, M i i

/-- Spec: the exchange self-energy, `-trace` of the `"oooo"` block for
occupied `p` and `-trace` of the `"ovvo"` block for virtual `p`. -/
def exchange_spec (d : TDData F no nv nexc nb) (p : Fin (no + nv)) : Cx F :=
  if h : (p : ℕ) < no then
    -traceC no (fun i j => d.oooo ⟨p, h⟩ i j ⟨p, h⟩)
  else
    -traceC no (fun i j =>
      d.ovvo i ⟨(p : ℕ) - no, by have := p.isLt; omega⟩
        ⟨(p : ℕ) - no, by have := p.isLt; omega⟩ j)

/-- Spec: the double-counting correction, the `p`-diagonal expectation value
`<p| v_mf |p>`. -/
def dcc_spec (d : TDData F no nv nexc nb) (p : Fin (no + nv)) : Cx F :=
  ∑ i : Fin nb, ∑ j : Fin nb,
    Cx.conj (d.mo_coeff i p) * d.v_mf i j * d.mo_coeff j p

/-- Spec: `rhs = mean_field_energy[p] + exchange_self_energy[p] -
double_counting_correction[p]`. -/
def rhs_spec (d : TDData F no nv nexc nb) (p : Fin (no + nv)) : Cx F :=
  Cx.ofReal (d.mo_energy p) + exchange_spec d p - dcc_spec d p

/-! ## Python exceptions

The kinds of exception the driver can raise or catch.  The builtin Python 3
exception classes have no `message` attribute; the `orb` and `history`
fields model the diagnostic payload a raised exception actually carries
(the orbital index and the `(omega, residual)` evaluation history), which
is `none` for every exception the modelled code constructs. -/
inductive ExcKind
  | runtimeError
  | valueError
  | typeError
  | attributeError
  | notImplementedError
deriving DecidableEq, Repr

/-- A raised Python exception together with its (possibly absent)
diagnostic payload. -/
structure PyError where
  kind : ExcKind
  orb : Option (List ℕ)
  history : Option (List (ℚ × ℚ))
deriving DecidableEq, Repr

/-- A payload-free exception of the given kind, as raised by the builtin
exception constructors. -/
def rerr (k : ExcKind) : PyError := ⟨k, none, none⟩

/-- Result of a Python computation: a value, or a raised exception. -/
inductive PyResult (α : Type)
  | ok (val : α)
  | exn (e : PyError)
deriving DecidableEq, Repr

/-- The kind of the raised exception, if any. -/
def exnKind {α : Type} : PyResult α → Option ExcKind
  | .ok _ => none
  | .exn e => some e.kind

/-- A residual function handed to the root finders: evaluating it may
itself raise. -/
def Res : Type := ℚ → PyResult ℚ

/-! ## The SciPy root finders wrapped in `LoggingFunction`

`LoggingFunction.__call__` evaluates the underlying function and appends
the pair `(x, y)` to its history; when the underlying function raises,
nothing is appended and the exception propagates.  The history list is
threaded explicitly through the solvers. -/

/-- One logged evaluation of the residual (`LoggingFunction.__call__`). -/
def callLog (f : Res) (x : ℚ) (log : List (ℚ × ℚ)) :
    PyResult ℚ × List (ℚ × ℚ) :=
  match f x with
  | .ok y => (.ok y, log ++ [(x, y)])
  | .exn e => (.exn e, log)

/-- The secant update `p1 - q1*(p1 - p0)/(q1 - q0)`. -/
def secantStep (p0 q0 p1 q1 : ℚ) : ℚ :=
  p1 - q1 * (p1 - p0) / (q1 - q0)

/-- Modelled from the spec: the iteration loop of SciPy's derivative-free
`newton` (not part of this repository).  A secant iteration with absolute
step tolerance `tol`; when the two latest residuals coincide the tolerance
is unreachable and a `RuntimeError` is raised (unless the points coincide
too, in which case their midpoint is returned); failing to converge within
the iteration budget raises `RuntimeError`. -/
def secantLoop (f : Res) (tol : ℚ) :
    ℕ → ℚ → ℚ → ℚ → ℚ → List (ℚ × ℚ) → PyResult ℚ × List (ℚ × ℚ)
  | 0, _, _, _, _, log => (.exn (rerr .runtimeError), log)
  | fuel + 1, p0, q0, p1, q1, log =>
    if q1 = q0 then
      if p1 = p0 then (.ok ((p1 + p0) / 2), log)
      else (.exn (rerr .runtimeError), log)
    else
      let p := secantStep p0 q0 p1 q1
      if |p - p1| < tol then (.ok p, log)
      else
        match callLog f p log with
        | (.ok q, log2) => secantLoop f tol fuel p1 q1 p q log2
        | (.exn e, log2) => (.exn e, log2)

/-- Modelled from the spec: SciPy's `newton(func, x0, tol=tol,
maxiter=maxiter)` without a derivative — the fast secant-type local root
finder started from `initial_guess`.  The second point is seeded at
`x0*(1 + 1e-4) ± 1e-4` (sign following `x0`). -/
def newtonM (f : Res) (x0 tol : ℚ) (maxiter : ℕ) (log : List (ℚ × ℚ)) :
    PyResult ℚ × List (ℚ × ℚ) :=
  let eps : ℚ := 1 / 10000
  let p1 := if x0 ≥ 0 then x0 * (1 + eps) + eps else x0 * (1 + eps) - eps
  match callLog f x0 log with
  | (.exn e, log1) => (.exn e, log1)
  | (.ok q0, log1) =>
    match callLog f p1 log1 with
    | (.exn e, log2) => (.exn e, log2)
    | (.ok q1, log2) => secantLoop f tol maxiter x0 q0 p1 q1 log2

/-- Modelled from the spec: the interval-halving loop of SciPy's `bisect`.
`fa` is the residual at the initial left endpoint; the half-width `dm` is
halved each step, the midpoint `xm = xa + dm/2` is evaluated, `xa` moves to
`xm` whenever `f(xm)` has the sign of `fa`, and the midpoint is returned as
soon as it is an exact root or `|dm/2| < xtol`. -/
def bisectLoop (f : Res) (fa xtol : ℚ) :
    ℕ → ℚ → ℚ → List (ℚ × ℚ) → PyResult ℚ × List (ℚ × ℚ)
  | 0, _, _, log => (.exn (rerr .runtimeError), log)
  | fuel + 1, xa, dm, log =>
    let dm2 := dm / 2
    let xm := xa + dm2
    match callLog f xm log with
    | (.exn e, log1) => (.exn e, log1)
    | (.ok fm, log1) =>
      let xa2 := if fm * fa ≥ 0 then xm else xa
      if fm = 0 ∨ |dm2| < xtol then (.ok xm, log1)
      else bisectLoop f fa xtol fuel xa2 dm2 log1

/-- Modelled from the spec: SciPy's `bisect(f, xa, xb, xtol=tol,
maxiter=maxiter)` — a bracketing bisection with an x-space tolerance,
raising `ValueError` when the endpoint residuals do not change sign. -/
def bisectM (f : Res) (xa xb xtol : ℚ) (maxiter : ℕ)
    (log : List (ℚ × ℚ)) : PyResult ℚ × List (ℚ × ℚ) :=
  match callLog f xa log with
  | (.exn e, log1) => (.exn e, log1)
  | (.ok fa, log1) =>
    match callLog f xb log1 with
    | (.exn e, log2) => (.exn e, log2)
    | (.ok fb, log2) =>
      if fa * fb > 0 then (.exn (rerr .valueError), log2)
      else if fa = 0 then (.ok xa, log2)
      else if fb = 0 then (.ok xb, log2)
      else bisectLoop f fa xtol maxiter xa (xb - xa) log2

/-! ## The GW kernel driver -/

/-- The `AbstractIMDS` interface as consumed by `kernel`: the number of
orbital-index dimensions, the entire orbital space (a list of `orb_dims`
index lists), the initial guess, and the residual-function factory
`quasiparticle_eq(p, eta=eta)`.  An orbital is the tuple of its indices
(the source unwraps a 1-tuple to a bare index before use, which is purely
representational). -/
structure AIMDS where
  orb_dims : ℕ
  entire_space : List (List ℕ)
  initial_guess : List ℕ → ℚ
  quasiparticle_eq : List ℕ → ℚ → Res

/-- An `AbstractIMDS` whose residual functions never raise, given by the
pure family `g p eta omega`. -/
def pureIMDS (od : ℕ) (es : List (List ℕ)) (ig : List ℕ → ℚ)
    (g : List ℕ → ℚ → ℚ → ℚ) : AIMDS :=
  ⟨od, es, ig, fun p eta ω => .ok (g p eta ω)⟩

/-- `min(debug.x)` over a nonempty history (`0` on an empty list, which the
caller rules out). -/
def listMin : List ℚ → ℚ
  | [] => 0
  | x :: xs => xs.foldl min x

/-- `max(debug.x)` over a nonempty history. -/
def listMax : List ℚ → ℚ
  | [] => 0
  | x :: xs => xs.foldl max x

/-- The three recognized root-finding methods (an unrecognized string is
rejected with `ValueError` before any computation; modelling the method as
an enumeration makes that branch unreachable). -/
inductive Method
  | newton
  | bisect
  | fallback
deriving DecidableEq, Repr

/-- The per-orbital body of `kernel`'s loop: build a fresh
`LoggingFunction` around `quasiparticle_eq(p, eta=eta)` and dispatch on
`method`.  Returns the root (or the raised exception) together with the
list of fallback warnings, each recorded as the bisection bracket bounds
it reports.

Under `newton`, a failure enters `except Exception as e:` whose first
statement reads `e.message`; builtin Python 3 exceptions have no `message`
attribute, so that read itself raises a payload-free `AttributeError`
(the history plot and the re-raise are never executed).

Under `fallback`, only a `RuntimeError` is caught; the recovery runs
`bisect` on `[min(debug.x), max(debug.x)]` after logging the warning
(`min`/`max` of an empty history raise `ValueError`). -/
def solveOrbital (imds : AIMDS) (p : List ℕ) (eta tol : ℚ)
    (method : Method) : PyResult ℚ × List (ℚ × ℚ) :=
  let f := imds.quasiparticle_eq p eta
  match method with
  | .newton =>
    match newtonM f (imds.initial_guess p) tol 100 [] with
    | (.ok x, _) => (.ok x, [])
    | (.exn _, _) => (.exn (rerr .attributeError), [])
  | .bisect => ((bisectM f (-100) 100 tol 100 []).1, [])
  | .fallback =>
    match newtonM f (imds.initial_guess p) tol 100 [] with
    | (.ok x, _) => (.ok x, [])
    | (.exn e, log) =>
      if e.kind = .runtimeError then
        if log.isEmpty then (.exn (rerr .valueError), [])
        else
          let lo := listMin (log.map Prod.fst)
          let hi := listMax (log.map Prod.fst)
          ((bisectM f lo hi tol 100 log).1, [(lo, hi)])
      else (.exn e, [])

/-- A dimension entry of the `orbs` list: either an iterable of orbital
indexes, or a bare integer (on which `len()` raises `TypeError`). -/
inductive OrbsDim
  | arr (l : List ℕ)
  | int (n : ℕ)
deriving DecidableEq, Repr

/-- The dynamic type of the `orbs` argument: `None`, a non-list iterable of
indexes (which `kernel` wraps into a one-element list), or a Python list of
dimension entries. -/
inductive OrbsArg
  | noneArg
  | single (l : List ℕ)
  | list (ds : List OrbsDim)
deriving DecidableEq, Repr

/-- Python's `l[:-k]` slice for `k >= 0` (empty when `k = 0`). -/
def pySliceUpToNeg {α : Type} (l : List α) (k : ℕ) : List α :=
  if k = 0 then [] else l.take (l.length - k)

/-- The `orbs` normalization in `kernel`: default to the entire space,
wrap a non-list into a list, and prepend the missing leading dimensions
from the entire space (`orbs = _orbs[:-len(orbs)] + orbs`). -/
def normalizeOrbs (entire : List (List ℕ)) (orb_dims : ℕ)
    (orbs : OrbsArg) : List OrbsDim :=
  let ds := match orbs with
    | .noneArg => entire.map OrbsDim.arr
    | .single l => [OrbsDim.arr l]
    | .list ds => ds
  if ds.length < orb_dims then
    pySliceUpToNeg (entire.map OrbsDim.arr) ds.length ++ ds
  else ds

/-- `len(i)` for a dimension entry: `TypeError` on a bare integer. -/
def dimLen : OrbsDim → PyResult ℕ
  | .arr l => .ok l.length
  | .int _ => .exn (rerr .typeError)

/-- `shape = tuple(len(i) for i in orbs)`, failing on the first entry
without a length. -/
def shapeOf : List OrbsDim → PyResult (List ℕ)
  | [] => .ok []
  | d :: ds =>
    match dimLen d with
    | .exn e => .exn e
    | .ok n =>
      match shapeOf ds with
      | .exn e => .exn e
      | .ok ns => .ok (n :: ns)

/-- `i[j]` for a dimension entry (only reached when the shape computation
succeeded, i.e. on `arr` entries). -/
def dimGet : OrbsDim → ℕ → ℕ
  | .arr l, i => l.getD i 0
  | .int n, _ => n

/-- `itertools.product(*tuple(numpy.arange(i) for i in shape))` in
row-major order. -/
def allTuples : List ℕ → List (List ℕ)
  | [] => [[]]
  | n :: ns => (List.range n).flatMap (fun i => (allTuples ns).map (i :: ·))

/-- The orbital tuples `p = tuple(i[j] for i, j in zip(orbs, i_p))`
enumerated by the kernel loop. -/
def orbTuples (dims : List OrbsDim) (shape : List ℕ) : List (List ℕ) :=
  (allTuples shape).map (fun ip =>
    (dims.zip ip).map (fun di => dimGet di.1 di.2))

/-- The kernel loop over all requested orbital tuples.  `linearized=True`
raises `NotImplementedError` on the first iteration; an exception in any
orbital aborts the whole call.  Warnings accumulate across orbitals. -/
def runOrbs (imds : AIMDS) (eta tol : ℚ) (method : Method)
    (linearized : Bool) : List (List ℕ) → PyResult (List ℚ) × List (ℚ × ℚ)
  | [] => (.ok [], [])
  | p :: rest =>
    if linearized then (.exn (rerr .notImplementedError), [])
    else
      match solveOrbital imds p eta tol method with
      | (.ok x, w) =>
        match runOrbs imds eta tol method linearized rest with
        | (.ok xs, w2) => (.ok (x :: xs), w ++ w2)
        | (.exn e, w2) => (.exn e, w ++ w2)
      | (.exn e, w) => (.exn e, w)

/-- `kernel(imds, orbs, linearized, eta, tol, method)`: check that
`entire_space` is a list of length `orb_dims`, normalize `orbs`, compute
the result shape, and fill the result tensor (returned flattened in
row-major order next to its shape) by solving the quasiparticle equation
for every requested orbital tuple. -/
def kernel (imds : AIMDS) (orbs : OrbsArg) (linearized : Bool)
    (eta tol : ℚ) (method : Method) :
    PyResult (List ℕ × List ℚ) × List (ℚ × ℚ) :=
  if imds.entire_space.length ≠ imds.orb_dims then
    (.exn (rerr .runtimeError), [])
  else
    match shapeOf (normalizeOrbs imds.entire_space imds.orb_dims orbs) with
    | .exn e => (.exn e, [])
    | .ok shape =>
      match runOrbs imds eta tol method linearized
          (orbTuples (normalizeOrbs imds.entire_space imds.orb_dims orbs)
            shape) with
      | (.ok vals, w) => (.ok (shape, vals), w)
      | (.exn e, w) => (.exn e, w)

/-! ## The scoped mutation of the mean-field object in `IMDS.__init__` -/

/-- The externally owned mutable state of the mean-field object: its
occupation vector `mo_occ` and (when the attribute exists) the
exchange-divergence treatment `exxdiv` (`some 1` standing for the string
setting, `none` for Python `None`). -/
structure MFState where
  mo_occ : List ℚ
  exxdiv : Option ℤ
deriving DecidableEq, Repr

/-- `self.mf.mo_occ[~self.eri.space] = 0`: zero the occupations outside the
active space mask. -/
def applyMask (occ : List ℚ) (space : List Bool) : List ℚ :=
  (occ.zip space).map (fun os => if os.2 then os.1 else 0)

/-- The mean-field mutation window of `IMDS.__init__` (lines 114-121):
back up `mo_occ`, zero the masked occupations in place, run the contained
potential computation `getV` (modelling `self.mf.get_veff() -
self.mf.get_j()`, which may raise) — under `temporary_env(self.mf,
exxdiv=None)` when the attribute exists — then assign the backup back.
`temporary_env` is modelled from the spec as a scoped override that
restores `exxdiv` on every exit path.  The final `self.mf.mo_occ = backup`
is a plain statement with no `try/finally`, so it is skipped when `getV`
raises.  Returns the result of the contained computation and the final
state of the mean-field object. -/
def imdsInitMF (mf : MFState) (space : List Bool) (hasExx : Bool)
    (getV : MFState → PyResult ℚ) : PyResult ℚ × MFState :=
  let backup := mf.mo_occ
  let mf1 : MFState := ⟨applyMask mf.mo_occ space, mf.exxdiv⟩
  if hasExx then
    let saved := mf1.exxdiv
    let mf2 : MFState := ⟨mf1.mo_occ, none⟩
    match getV mf2 with
    | .ok v => (.ok v, ⟨backup, saved⟩)
    | .exn e => (.exn e, ⟨mf2.mo_occ, saved⟩)
  else
    match getV mf1 with
    | .ok v => (.ok v, ⟨backup, mf1.exxdiv⟩)
    | .exn e => (.exn e, mf1)

/-! ## Concrete instances used by counterexamples and witnesses -/

/-- A steep linear residual, `9e9*omega - 3e9`, with root `1/3`. -/
def gSteep : List ℕ → ℚ → ℚ → ℚ :=
  fun _ _ ω => 9000000000 * ω - 3000000000

/-- A single-orbital container whose residual is `gSteep`. -/
def imdsSteep : AIMDS := pureIMDS 1 [[0]] (fun _ => 0) gSteep

/-- The unit-slope residual `omega - 1`, with root `1`. -/
def gUnit : List ℕ → ℚ → ℚ → ℚ := fun _ _ ω => ω - 1

/-- A single-orbital container whose residual is `gUnit`. -/
def imdsUnit : AIMDS := pureIMDS 1 [[0]] (fun _ => 0) gUnit

/-- The residual `omega - 5` on which the secant iteration converges. -/
def gLin : List ℕ → ℚ → ℚ → ℚ := fun _ _ ω => ω - 5

/-- A single-orbital container whose residual is `gLin`. -/
def imdsLin : AIMDS := pureIMDS 1 [[0]] (fun _ => 0) gLin

/-- The residual `1/omega`: positive on the secant iterates, rootless, and
the secant update degenerates to `p2 = p1 + p0`, so the iterates grow and
`newton` exhausts its 100-iteration budget. -/
def gInv : List ℕ → ℚ → ℚ → ℚ := fun _ _ ω => 1 / ω

/-- A single-orbital container whose residual is `gInv`, with initial
guess `1`. -/
def imdsInv : AIMDS := pureIMDS 1 [[0]] (fun _ => 1) gInv

/-- A container whose residual raises `ValueError` on every evaluation. -/
def imdsRaise : AIMDS :=
  ⟨1, [[0]], fun _ => 0, fun _ _ _ => .exn (rerr .valueError)⟩

/-- A two-dimensional container over a full space of size 5 (each residual
again `omega - 1`). -/
def imdsTwoDim : AIMDS :=
  pureIMDS 2 [[0, 1, 2, 3, 4], [0, 1, 2, 3, 4]] (fun _ => 0)
    (fun _ _ ω => ω - 1)

/-- A residual function that never raises. -/
def pureRes (g : ℚ → ℚ) : Res := fun ω => .ok (g ω)

/-- The evaluation history left behind by a `newton` run started with an
empty history (the state of `debug.__x__`/`debug.__y__` after the call). -/
def newtonLog (f : Res) (x0 tol : ℚ) : List (ℚ × ℚ) :=
  (newtonM f x0 tol 100 []).2

/-- `min(debug.x)` after a failed `newton` run. -/
def newtonLo (f : Res) (x0 tol : ℚ) : ℚ :=
  listMin ((newtonLog f x0 tol).map Prod.fst)

/-- `max(debug.x)` after a failed `newton` run. -/
def newtonHi (f : Res) (x0 tol : ℚ) : ℚ :=
  listMax ((newtonLog f x0 tol).map Prod.fst)

/-- `x` is an exact root of `g`, or lies within `tol` of a point across
which `g` changes (weak) sign. -/
def RootNear (g : ℚ → ℚ) (tol x : ℚ) : Prop :=
  g x = 0 ∨ ∃ u, |u - x| < tol ∧ g x * g u ≤ 0

/-- A contained potential computation that raises (`get_veff` failing). -/
def getVRaise : MFState → PyResult ℚ := fun _ => .exn (rerr ExcKind.runtimeError)

/-- A tiny concrete real-valued TDHF data set (one occupied, one virtual
orbital, one excitation, one AO). -/
def dW : TDData ℚ 1 1 1 1 where
  mo_energy := fun _ => 0
  td_e := fun _ => 1
  xy := fun _ _ _ _ => ⟨1, 1⟩
  oooo := fun _ _ _ _ => ⟨1, 2⟩
  oovo := fun _ _ _ _ => ⟨2, 1⟩
  oovv := fun _ _ _ _ => ⟨3, 5⟩
  ovvv := fun _ _ _ _ => ⟨1, 0⟩
  ovvo := fun _ _ _ _ => ⟨0, 1⟩
  v_mf := fun _ _ => ⟨1, 0⟩
  mo_coeff := fun _ _ => ⟨1, 0⟩
  iscomplex := false

/-! # Theorems -/

attribute [local semireducible] Rat.add Rat.sub Rat.mul Rat.inv

/-- Helper: the code's `get_sigma_element` agrees with the spec formula
(the flattened `numpy.sum`s over 2-D arrays become iterated sums). -/
theorem sigma_code_eq_spec (d : TDData F no nv nexc nb) (ω η s : F)
    (p : Fin (no + nv)) :
    get_sigma_element d ω p η s = sigma_spec d ω p η s := by
  unfold get_sigma_element sigma_spec evi_spec eva_spec
  rw [Fintype.sum_prod_type, Fintype.sum_prod_type]

/-- Helper: the code's `get_rhs` agrees with the spec decomposition. -/
theorem rhs_code_eq_spec (d : TDData F no nv nexc nb) (p : Fin (no + nv)) :
    get_rhs d p = rhs_spec d p := by
  unfold get_rhs rhs_spec exchange_spec dcc_spec traceC
  rw [Fintype.sum_prod_type]

/-- Claim C4 (confirmed): for every frequency, orbital, broadening and
virtual-pole sign, `get_sigma_element` returns exactly the spec value
`sum[v,i] tdm[v,i,p]^2 / (omega + evi[v,i] - i*eta) + sum[v,a]
tdm[v,a,p]^2 / (omega - eva[v,a] + vir_sign*i*eta)`, with `tdm` summed
over its spin-component axis. -/
theorem c4_sigma_element (d : TDData F no nv nexc nb) (ω η s : F)
    (p : Fin (no + nv)) :
    get_sigma_element d ω p η s = sigma_spec d ω p η s :=
  sigma_code_eq_spec d ω η s p

/-- Claim C5 (confirmed): the function returned by `quasiparticle_eq`
satisfies `residual(omega) = omega - Re(Sigma(omega, p)) - rhs(p)` with
`rhs(p) = mean_field_energy[p] + exchange_self_energy[p] -
double_counting_correction[p]`, the exchange term being `-trace` of the
`"oooo"` block for occupied `p` and `-trace` of the `"ovvo"` block for
virtual `p`, and the double-counting term the `p`-diagonal expectation
value of `v_mf`. -/
theorem c5_quasiparticle_eq (d : TDData F no nv nexc nb) (η s : F)
    (p : Fin (no + nv)) (ω : F) :
    quasiparticle_eq d η s p ω =
      Cx.ofReal ω - Cx.ofReal ((sigma_spec d ω p η s).re) - rhs_spec d p := by
  unfold quasiparticle_eq
  rw [sigma_code_eq_spec, rhs_code_eq_spec]

/-- Claim C6 (confirmed): whenever the integral store is real-valued, the
vir-occ quadrant of the assembled transition density tensor equals exactly
the conjugate transpose (over the two orbital axes) of the occ-vir
quadrant, for every excitation and spin component. -/
theorem c6_tdm_vo_conj (d : TDData F no nv nexc nb)
    (h : d.iscomplex = false) (v : Fin nexc) (x : Fin 2) (a : Fin nv)
    (i : Fin no) :
    tdm d v x (Fin.natAdd no a) (Fin.castAdd nv i) =
      Cx.conj (tdm d v x (Fin.castAdd nv i) (Fin.natAdd no a)) := by
  have hna : ¬ ((Fin.natAdd no a : Fin (no + nv)) : ℕ) < no := by
    simp only [Fin.coe_natAdd]
    omega
  have hca : ((Fin.castAdd nv i : Fin (no + nv)) : ℕ) < no := by
    simp only [Fin.coe_castAdd]
    exact i.isLt
  unfold tdm
  rw [dif_neg hna, dif_pos hca, dif_pos hca, dif_neg hna]
  unfold tdm_vo
  rw [if_neg (by simp [h])]

/-- Witness for C6: a concrete real-valued data set satisfies the
hypothesis and the quadrant symmetry. -/
theorem c6_witness :
    dW.iscomplex = false ∧
    tdm dW 0 0 (Fin.natAdd 1 0) (Fin.castAdd 1 0) =
      Cx.conj (tdm dW 0 0 (Fin.castAdd 1 0) (Fin.natAdd 1 0)) :=
  ⟨rfl, c6_tdm_vo_conj dW rfl 0 0 0 0⟩

/-- Helper: inverting a successful `kernel` run into its three stages. -/
theorem kernel_ok {imds : AIMDS} {orbs : OrbsArg} {lin : Bool}
    {eta tol : ℚ} {m : Method} {sh : List ℕ} {vals : List ℚ}
    {w : List (ℚ × ℚ)}
    (h : kernel imds orbs lin eta tol m = (.ok (sh, vals), w)) :
    imds.entire_space.length = imds.orb_dims ∧
    shapeOf (normalizeOrbs imds.entire_space imds.orb_dims orbs) = .ok sh ∧
    runOrbs imds eta tol m lin
      (orbTuples (normalizeOrbs imds.entire_space imds.orb_dims orbs) sh) =
      (.ok vals, w) := by
  unfold kernel at h
  split at h
  · simp at h
  · next hlen =>
    split at h
    · simp at h
    · next shape hshape =>
      split at h
      · next vals2 w2 hrun =>
        injection h with h4 h5
        injection h4 with h6
        injection h6 with h7 h8
        subst h7; subst h8; subst h5
        exact ⟨by omega, hshape, hrun⟩
      · simp at h

/-- Helper: invariant preservation and exit analysis for the bisection
loop.  `fa` is the (nonzero) residual at the original left endpoint;
throughout the loop the residual agrees in sign with `fa` at `xa` and
against `fa` at `xa + dm`. -/
theorem bisectLoop_root (g : ℚ → ℚ) (fa tol : ℚ) (hfa : fa ≠ 0) :
    ∀ (fuel : ℕ) (xa dm : ℚ) (log : List (ℚ × ℚ)) (x : ℚ),
      g xa * fa ≥ 0 → fa * g (xa + dm) ≤ 0 →
      (bisectLoop (pureRes g) fa tol fuel xa dm log).1 = .ok x →
      RootNear g tol x := by
  intro fuel
  induction fuel with
  | zero =>
    intro xa dm log x h1 h2 h3
    simp [bisectLoop] at h3
  | succ n ih =>
    intro xa dm log x h1 h2 h3
    have hsq : 0 < fa * fa := mul_self_pos.mpr hfa
    have hmid : xa + dm / 2 + dm / 2 = xa + dm := by ring
    simp only [bisectLoop, callLog, pureRes] at h3
    split at h3
    · next hstop =>
      injection h3 with h3
      subst h3
      rcases hstop with hz | htol
      · exact Or.inl hz
      · by_cases hge : g (xa + dm / 2) * fa ≥ 0
        · refine Or.inr ⟨xa + dm / 2 + dm / 2, ?_, ?_⟩
          · simpa using htol
          · rw [hmid]
            nlinarith [h2, hge, hsq]
        · refine Or.inr ⟨xa, ?_, ?_⟩
          · have : xa - (xa + dm / 2) = -(dm / 2) := by ring
            rw [this, abs_neg]
            exact htol
          · push_neg at hge
            nlinarith [h1, hge, hsq]
    · next hstop =>
      by_cases hge : g (xa + dm / 2) * fa ≥ 0
      · rw [if_pos hge] at h3
        refine ih (xa + dm / 2) (dm / 2) _ x hge ?_ h3
        rw [hmid]
        exact h2
      · rw [if_neg hge] at h3
        refine ih xa (dm / 2) _ x h1 ?_ h3
        push_neg at hge
        nlinarith [hge]

/-- Helper: a successful `bisect` call returns an exact root or a point
within `xtol` of a sign change of the residual. -/
theorem bisectM_root (g : ℚ → ℚ) (a b tol : ℚ) (fuel : ℕ)
    (log : List (ℚ × ℚ)) (x : ℚ)
    (h : (bisectM (pureRes g) a b tol fuel log).1 = .ok x) :
    RootNear g tol x := by
  simp only [bisectM, callLog, pureRes] at h
  split at h
  · simp at h
  · split at h
    · next hfa0 =>
      injection h with h
      subst h
      exact Or.inl hfa0
    · split at h
      · next hfb0 =>
        injection h with h
        subst h
        exact Or.inl hfb0
      · next hfb hfa0 hfb0 =>
        refine bisectLoop_root g (g a) tol hfa0 fuel a (b - a) _ x
          (mul_self_nonneg _) ?_ h
        have hab : a + (b - a) = b := by ring
        rw [hab]
        nlinarith [not_lt.mp hfb]

/-- Helper: the `bisect` branch of the per-orbital driver. -/
theorem solveOrbital_bisect_root (od : ℕ) (es : List (List ℕ))
    (ig : List ℕ → ℚ) (g : List ℕ → ℚ → ℚ → ℚ) (p : List ℕ)
    (eta tol : ℚ) (x : ℚ)
    (h : (solveOrbital (pureIMDS od es ig g) p eta tol Method.bisect).1 =
      .ok x) :
    RootNear (g p eta) tol x :=
  bisectM_root (g p eta) (-100) 100 tol 100 [] x h

/-- Helper: every value produced by a successful `bisect`-mode loop over a
tuple list is near a root of its own orbital's residual. -/
theorem runOrbs_bisect_root (od : ℕ) (es : List (List ℕ))
    (ig : List ℕ → ℚ) (g : List ℕ → ℚ → ℚ → ℚ) (eta tol : ℚ)
    (lin : Bool) :
    ∀ (L : List (List ℕ)) (vals : List ℚ) (w : List (ℚ × ℚ)),
      runOrbs (pureIMDS od es ig g) eta tol Method.bisect lin L =
        (.ok vals, w) →
      ∀ k, k < vals.length →
        RootNear (g (L.getD k []) eta) tol (vals.getD k 0) := by
  intro L
  induction L with
  | nil =>
    intro vals w h k hk
    simp only [runOrbs] at h
    injection h with h4 h5
    injection h4 with h6
    subst h6
    exact absurd hk (by simp)
  | cons p rest ih =>
    intro vals w h k hk
    simp only [runOrbs] at h
    split at h
    · simp at h
    · split at h
      · next xval w1 hs =>
        split at h
        · next xs w2 hr =>
          injection h with h4 h5
          injection h4 with h6
          subst h6
          match k with
          | 0 =>
            refine solveOrbital_bisect_root od es ig g p eta tol xval ?_
            rw [hs]
          | k + 1 =>
            exact ih xs w2 hr k (by simpa using hk)
        · simp at h
      · simp at h

/-- Claim C1, amended (the original claim is refuted by
`c1_counterexample`): for `method='bisect'`, every value stored in the
result tensor is an exact root of its orbital's residual or lies within
`tol` (in omega-space) of a point across which the residual changes sign;
the residual's magnitude at the returned value is not bounded by `tol`. -/
theorem c1_amended (od : ℕ) (es : List (List ℕ)) (ig : List ℕ → ℚ)
    (g : List ℕ → ℚ → ℚ → ℚ) (orbs : OrbsArg) (lin : Bool)
    (eta tol : ℚ) (sh : List ℕ) (vals : List ℚ) (w : List (ℚ × ℚ))
    (h : kernel (pureIMDS od es ig g) orbs lin eta tol Method.bisect =
      (.ok (sh, vals), w)) :
    ∀ k, k < vals.length →
      RootNear (g ((orbTuples (normalizeOrbs es od orbs) sh).getD k []) eta)
        tol (vals.getD k 0) := by
  obtain ⟨h1, h2, h3⟩ := kernel_ok h
  exact runOrbs_bisect_root od es ig g eta tol lin _ vals w h3

/-- Witness for the amended C1: a concrete single-orbital `bisect` run
(residual `omega - 1`, whose root `1` is never hit exactly by the dyadic
midpoints of `[-100, 100]`). -/
theorem c1_witness :
    kernel imdsUnit OrbsArg.noneArg false (1/1000) (1/1000000000)
        Method.bisect =
      (.ok ([1], [34359738375/34359738368]), []) ∧
    RootNear (gUnit [0] (1/1000)) (1/1000000000) (34359738375/34359738368) :=
  ⟨by decide,
   c1_amended 1 [[0]] (fun _ => 0) gUnit OrbsArg.noneArg false (1/1000)
     (1/1000000000) [1] [34359738375/34359738368] [] (by decide) 0
     (by decide)⟩

/-- Counterexample to C1 as stated: with the steep residual
`9e9*omega - 3e9` (root `1/3`), `kernel` with `method='bisect'` and
`tol = 1e-9` returns a value at which the residual magnitude exceeds
`1e-2` — far beyond `tol`.  The bisection tolerance bounds the distance to
the root in omega-space, not the residual. -/
theorem c1_counterexample :
    kernel imdsSteep OrbsArg.noneArg false (1/1000) (1/1000000000)
        Method.bisect =
      (.ok ([1], [11453246125/34359738368]), []) ∧
    (1/1000000000 : ℚ) < |gSteep [0] (1/1000) (11453246125/34359738368)| := by
  constructor
  · decide
  · decide

/-- Helper: assembling a successful `kernel` run from its three stages. -/
theorem kernel_build {imds : AIMDS} {orbs : OrbsArg} {lin : Bool}
    {eta tol : ℚ} {m : Method} {sh : List ℕ} {vals : List ℚ}
    {w : List (ℚ × ℚ)}
    (h1 : imds.entire_space.length = imds.orb_dims)
    (h2 : shapeOf (normalizeOrbs imds.entire_space imds.orb_dims orbs) =
      .ok sh)
    (h3 : runOrbs imds eta tol m lin
      (orbTuples (normalizeOrbs imds.entire_space imds.orb_dims orbs) sh) =
      (.ok vals, w)) :
    kernel imds orbs lin eta tol m = (.ok (sh, vals), w) := by
  unfold kernel
  rw [if_neg (by omega)]
  rw [h2]
  dsimp only
  rw [h3]

/-- Helper: when the `newton` branch of the per-orbital driver succeeds,
the `fallback` branch produces the identical value (both run the same
deterministic `newton` call). -/
theorem solveOrbital_newton_fallback (imds : AIMDS) (p : List ℕ)
    (eta tol : ℚ) (x : ℚ)
    (h : (solveOrbital imds p eta tol Method.newton).1 = .ok x) :
    solveOrbital imds p eta tol Method.fallback = (.ok x, []) := by
  rcases hn : newtonM (imds.quasiparticle_eq p eta) (imds.initial_guess p)
      tol 100 [] with ⟨r, log⟩
  simp only [solveOrbital] at h ⊢
  rw [hn] at h ⊢
  cases r with
  | ok y =>
    dsimp only at h
    injection h with h
    subst h
    rfl
  | exn e => simp at h

/-- Helper: a successful `newton`-mode loop and the `fallback`-mode loop
on the same tuples agree (and the latter emits no warnings). -/
theorem runOrbs_newton_fallback (imds : AIMDS) (eta tol : ℚ) (lin : Bool) :
    ∀ (L : List (List ℕ)) (vals : List ℚ) (w : List (ℚ × ℚ)),
      runOrbs imds eta tol Method.newton lin L = (.ok vals, w) →
      runOrbs imds eta tol Method.fallback lin L = (.ok vals, []) := by
  intro L
  induction L with
  | nil =>
    intro vals w h
    simp only [runOrbs] at h ⊢
    injection h with h4 h5
    injection h4 with h6
    subst h6
    rfl
  | cons p rest ih =>
    intro vals w h
    simp only [runOrbs] at h ⊢
    split at h
    · simp at h
    · next hlin =>
      rw [if_neg hlin]
      split at h
      · next xval w1 hs =>
        split at h
        · next xs w2 hr =>
          injection h with h4 h5
          injection h4 with h6
          subst h6
          rw [solveOrbital_newton_fallback imds p eta tol xval (by rw [hs])]
          rw [ih xs w2 hr]
          rfl
        · simp at h
      · simp at h

/-- Claim C2 (confirmed): whenever `kernel` with `method='newton'`
succeeds, `kernel` with `method='fallback'` on the same inputs returns the
identical result tensor (and emits no fallback warnings) — the fallback
path never diverges from the pure Newton path when Newton succeeds. -/
theorem c2_fallback_agrees_with_newton (imds : AIMDS) (orbs : OrbsArg)
    (lin : Bool) (eta tol : ℚ) (r : List ℕ × List ℚ) (w : List (ℚ × ℚ))
    (h : kernel imds orbs lin eta tol Method.newton = (.ok r, w)) :
    kernel imds orbs lin eta tol Method.fallback = (.ok r, []) := by
  obtain ⟨sh, vals⟩ := r
  obtain ⟨h1, h2, h3⟩ := kernel_ok h
  exact kernel_build h1 h2 (runOrbs_newton_fallback imds eta tol lin _ vals w h3)

/-- Witness for C2: on a concrete single-orbital container the Newton path
converges to the exact root `5`, and the fallback path returns the same. -/
theorem c2_witness :
    kernel imdsLin OrbsArg.noneArg false (1/1000) (1/1000000000)
        Method.fallback =
      (.ok ([1], [5]), []) :=
  c2_fallback_agrees_with_newton imdsLin OrbsArg.noneArg false (1/1000)
    (1/1000000000) ([1], [5]) [] (by decide)

/-- Claim C3 (confirmed): in `fallback` mode, when the Newton phase fails
with a `RuntimeError`, the driver runs bisection exactly on the bracket
`[min(evaluated omega), max(evaluated omega)]` from the recorded history
(logging that bracket as the warning); and when the residual does not
change sign between those bracket endpoints, the orbital fails fatally
with the bisection `ValueError` instead of any wider bracket being tried. -/
theorem c3_fallback_bracket (od : ℕ) (es : List (List ℕ))
    (ig : List ℕ → ℚ) (g : List ℕ → ℚ → ℚ → ℚ) (p : List ℕ) (eta tol : ℚ)
    (h1 : exnKind (newtonM (pureRes (g p eta)) (ig p) tol 100 []).1 =
      some ExcKind.runtimeError)
    (h2 : newtonLog (pureRes (g p eta)) (ig p) tol ≠ []) :
    solveOrbital (pureIMDS od es ig g) p eta tol Method.fallback =
      ((bisectM (pureRes (g p eta)) (newtonLo (pureRes (g p eta)) (ig p) tol)
          (newtonHi (pureRes (g p eta)) (ig p) tol) tol 100
          (newtonLog (pureRes (g p eta)) (ig p) tol)).1,
        [(newtonLo (pureRes (g p eta)) (ig p) tol,
          newtonHi (pureRes (g p eta)) (ig p) tol)]) ∧
    (g p eta (newtonLo (pureRes (g p eta)) (ig p) tol) *
        g p eta (newtonHi (pureRes (g p eta)) (ig p) tol) > 0 →
      (solveOrbital (pureIMDS od es ig g) p eta tol Method.fallback).1 =
        .exn (rerr ExcKind.valueError)) := by
  rcases hn : newtonM (pureRes (g p eta)) (ig p) tol 100 [] with ⟨r, log⟩
  unfold newtonLog at h2 ⊢
  unfold newtonLo newtonHi newtonLog
  rw [hn] at h1 h2 ⊢
  cases r with
  | ok y => simp [exnKind] at h1
  | exn e =>
    have hk : e.kind = ExcKind.runtimeError := by
      simpa [exnKind] using h1
    have hlog : log.isEmpty = false := by
      simpa [List.isEmpty_iff] using h2
    have hmain : solveOrbital (pureIMDS od es ig g) p eta tol
        Method.fallback =
        ((bisectM (pureRes (g p eta)) (listMin (log.map Prod.fst))
            (listMax (log.map Prod.fst)) tol 100 log).1,
          [(listMin (log.map Prod.fst), listMax (log.map Prod.fst))]) := by
      simp only [solveOrbital]
      rw [show (pureIMDS od es ig g).quasiparticle_eq p eta =
            pureRes (g p eta) from rfl,
        show (pureIMDS od es ig g).initial_guess p = ig p from rfl]
      rw [hn]
      dsimp only
      rw [if_pos hk, hlog]
      rw [if_neg Bool.false_ne_true]
    refine ⟨hmain, ?_⟩
    intro hsign
    rw [hmain]
    dsimp only
    simp only [bisectM, callLog, pureRes]
    rw [if_pos hsign]

/-- Witness for C3: the residual `1/omega` from initial guess `1` makes
the secant iterates grow (`p2 = p1 + p0`), so Newton exhausts its budget
with a `RuntimeError`; the recorded history is entirely positive, the
bracket `[min, max]` holds no sign change, and the orbital fails with
`ValueError`. -/
theorem c3_witness :
    (solveOrbital imdsInv [0] (1/1000) (1/1000000000) Method.fallback).1 =
      .exn (rerr ExcKind.valueError) :=
  (c3_fallback_bracket 1 [[0]] (fun _ => 1) gInv [0] (1/1000) (1/1000000000)
      (by decide) (by decide)).2 (by decide)

/-- Claim C9, amended (the original claim is refuted by
`c9_counterexample`): under `method='newton'` a failed root search is
fatal and no fallback is attempted, but the surfaced error is the
`AttributeError` raised by the annotation attempt itself (builtin Python 3
exceptions have no `message` attribute), and it carries neither the
orbital nor the `(omega, residual)` evaluation history. -/
theorem c9_newton_fatal (imds : AIMDS) (p : List ℕ) (eta tol : ℚ)
    (h : exnKind (newtonM (imds.quasiparticle_eq p eta)
      (imds.initial_guess p) tol 100 []).1 ≠ none) :
    solveOrbital imds p eta tol Method.newton =
      (.exn (rerr ExcKind.attributeError), []) ∧
    (rerr ExcKind.attributeError).history = none ∧
    (rerr ExcKind.attributeError).orb = none := by
  refine ⟨?_, rfl, rfl⟩
  rcases hn : newtonM (imds.quasiparticle_eq p eta) (imds.initial_guess p)
      tol 100 [] with ⟨r, log⟩
  rw [hn] at h
  cases r with
  | ok y => simp [exnKind] at h
  | exn e =>
    simp only [solveOrbital]
    rw [hn]

/-- Witness for C9's amended claim: the budget-exhausting residual
`1/omega`. -/
theorem c9_witness :
    solveOrbital imdsInv [0] (1/1000) (1/1000000000) Method.newton =
      (.exn (rerr ExcKind.attributeError), []) ∧
    (rerr ExcKind.attributeError).history = none ∧
    (rerr ExcKind.attributeError).orb = none :=
  c9_newton_fatal imdsInv [0] (1/1000) (1/1000000000) (by decide)

/-- Counterexample to C9 as stated: on the residual `1/omega` the Newton
search exhausts its budget, and `kernel` with `method='newton'` surfaces
an error whose `orb` and `history` payloads are both `none` — the
`e.message` annotation raises `AttributeError` before anything is
attached, so the surfaced error carries neither the orbital `p` nor any
`(omega, residual)` pair of the 102-point evaluation history. -/
theorem c9_counterexample :
    kernel imdsInv OrbsArg.noneArg false (1/1000) (1/1000000000)
        Method.newton =
      (.exn ⟨ExcKind.attributeError, none, none⟩, []) := by
  decide

/-- Claim C10 (confirmed): in `fallback` mode only a `RuntimeError` from
the Newton phase triggers bisection; an exception of any other kind
propagates unchanged, with no bisection attempted and no warning logged. -/
theorem c10_fallback_propagates (imds : AIMDS) (p : List ℕ) (eta tol : ℚ)
    (e : PyError)
    (h1 : (newtonM (imds.quasiparticle_eq p eta) (imds.initial_guess p)
      tol 100 []).1 = .exn e)
    (h2 : e.kind ≠ ExcKind.runtimeError) :
    solveOrbital imds p eta tol Method.fallback = (.exn e, []) := by
  rcases hn : newtonM (imds.quasiparticle_eq p eta) (imds.initial_guess p)
      tol 100 [] with ⟨r, log⟩
  rw [hn] at h1
  dsimp only at h1
  subst h1
  simp only [solveOrbital]
  rw [hn]
  dsimp only
  rw [if_neg h2]

/-- Witness for C10: a residual that raises `ValueError` on its first
evaluation propagates unchanged out of the fallback driver. -/
theorem c10_witness :
    solveOrbital imdsRaise [0] (1/1000) (1/1000000000) Method.fallback =
      (.exn (rerr ExcKind.valueError), []) :=
  c10_fallback_propagates imdsRaise [0] (1/1000) (1/1000000000)
    (rerr ExcKind.valueError) (by decide) (by decide)

/-- Helper: the shape of a list of well-formed (iterable) dimensions. -/
theorem shapeOf_arr (l : List (List ℕ)) :
    shapeOf (l.map OrbsDim.arr) = .ok (l.map List.length) := by
  induction l with
  | nil => rfl
  | cons a t ih =>
    simp only [List.map_cons, shapeOf, dimLen]
    rw [ih]

/-- Helper: the kernel loop enumerates exactly `prod(shape)` tuples. -/
theorem allTuples_length (ns : List ℕ) :
    (allTuples ns).length = ns.prod := by
  induction ns with
  | nil => rfl
  | cons n t ih =>
    simp only [allTuples, List.length_flatMap, Function.comp_def,
      List.length_map, List.map_const', List.sum_replicate,
      List.length_range, smul_eq_mul, List.prod_cons, ih]

/-- Helper: a successful kernel loop returns one value per tuple. -/
theorem runOrbs_ok_length (imds : AIMDS) (eta tol : ℚ) (m : Method)
    (lin : Bool) :
    ∀ (L : List (List ℕ)) (vals : List ℚ) (w : List (ℚ × ℚ)),
      runOrbs imds eta tol m lin L = (.ok vals, w) →
      vals.length = L.length := by
  intro L
  induction L with
  | nil =>
    intro vals w h
    simp only [runOrbs] at h
    injection h with h4 h5
    injection h4 with h6
    subst h6
    rfl
  | cons p rest ih =>
    intro vals w h
    simp only [runOrbs] at h
    split at h
    · simp at h
    · split at h
      · next xval w1 hs =>
        split at h
        · next xs w2 hr =>
          injection h with h4 h5
          injection h4 with h6
          subst h6
          simpa using ih xs w2 hr
        · simp at h
      · simp at h

/-- Helper: the normalization of a well-formed `orbs` list prepends the
missing leading dimensions from the entire space. -/
theorem normalizeOrbs_arr (es ds : List (List ℕ)) (od : ℕ)
    (hd1 : 1 ≤ ds.length) (hd2 : ds.length ≤ od) (hes : es.length = od) :
    normalizeOrbs es od (.list (ds.map OrbsDim.arr)) =
      (es.take (od - ds.length) ++ ds).map OrbsDim.arr := by
  unfold normalizeOrbs
  dsimp only
  rw [List.length_map]
  by_cases hlt : ds.length < od
  · rw [if_pos hlt]
    unfold pySliceUpToNeg
    rw [if_neg (by omega)]
    rw [List.length_map, hes, List.map_append, ← List.map_take]
  · rw [if_neg hlt]
    have hfull : ds.length = od := by omega
    rw [show od - ds.length = 0 by omega, List.take_zero, List.nil_append]

/-- Claim C7, amended (the original claim's literal example
`orbs=[3]` — a Python list holding a bare integer — is refuted by
`c7_counterexample`): for an `orbs` argument given as a list of
between 1 and `orb_dims` index iterables, `kernel` prepends the full
orbital space for each missing leading dimension, and the returned tensor
has shape equal to the lengths of all resulting dimensions, with one entry
per element of their Cartesian product (e.g. `orbs=[[3]]` with
`orb_dims=2` and full space size 5 expands to `[range(5), [3]]` and yields
shape `(5, 1)`). -/
theorem c7_orbs_defaulting (imds : AIMDS) (ds : List (List ℕ))
    (lin : Bool) (eta tol : ℚ) (m : Method) (sh : List ℕ)
    (vals : List ℚ) (w : List (ℚ × ℚ))
    (hd1 : 1 ≤ ds.length) (hd2 : ds.length ≤ imds.orb_dims)
    (h : kernel imds (.list (ds.map OrbsDim.arr)) lin eta tol m =
      (.ok (sh, vals), w)) :
    sh = (imds.entire_space.take (imds.orb_dims - ds.length) ++ ds).map
      List.length ∧
    vals.length = sh.prod := by
  obtain ⟨h1, h2, h3⟩ := kernel_ok h
  rw [normalizeOrbs_arr imds.entire_space ds imds.orb_dims hd1 hd2 h1]
    at h2 h3
  rw [shapeOf_arr] at h2
  injection h2 with h2
  constructor
  · exact h2.symm
  · rw [runOrbs_ok_length imds eta tol m lin _ vals w h3]
    unfold orbTuples
    rw [List.length_map, allTuples_length]

/-- Witness for the amended C7: `orbs=[[3]]` on the concrete
two-dimensional container with full space size 5. -/
theorem c7_witness :
    kernel imdsTwoDim (OrbsArg.list [OrbsDim.arr [3]]) false (1/1000)
        (1/1000000000) Method.newton =
      (.ok ([5, 1], [1, 1, 1, 1, 1]), []) ∧
    ([5, 1] : List ℕ) =
      (imdsTwoDim.entire_space.take (imdsTwoDim.orb_dims - 1) ++
        [[3]]).map List.length ∧
    ([1, 1, 1, 1, 1] : List ℚ).length = ([5, 1] : List ℕ).prod :=
  ⟨by decide,
   c7_orbs_defaulting imdsTwoDim [[3]] false (1/1000) (1/1000000000)
     Method.newton [5, 1] [1, 1, 1, 1, 1] [] (by decide) (by decide)
     (by decide)⟩

/-- Counterexample to C7 as stated: the claim's own example input
`orbs=[3]` is a Python list whose single entry is the bare integer `3`;
`kernel` then computes `orbs = _orbs[:-1] + [3] = [range(5), 3]` and the
shape generator calls `len(3)`, raising `TypeError` — no `(5, 1)` tensor
is returned. -/
theorem c7_counterexample :
    kernel imdsTwoDim (OrbsArg.list [OrbsDim.int 3]) false (1/1000)
        (1/1000000000) Method.newton =
      (.exn (rerr ExcKind.typeError), []) := by
  decide

/-- Claim C8 (code bug): `IMDS.__init__` restores `mo_occ` only on the
success path; when the contained potential computation raises,
`temporary_env` restores `exxdiv` but the masked `mo_occ` stays mutated
(`[2, 0]` instead of the prior `[2, 2]`), because `self.mf.mo_occ =
backup` is not protected by `try/finally`. -/
theorem c8_mo_occ_not_restored :
    imdsInitMF ⟨[2, 2], some 1⟩ [true, false] true getVRaise =
      (.exn (rerr ExcKind.runtimeError), ⟨[2, 0], some 1⟩) ∧
    ([2, 0] : List ℚ) ≠ [2, 2] := by
  constructor
  · decide
  · decide

end GWSlow
